import Mathlib

/-!
Verification of the rustrocket_x autopost pipeline
(`src/rustrocket_x/commands/autopost.py`, `src/rustrocket_x/utils/twitter.py`).

The pipeline is shallowly embedded: pure Python string manipulation is
translated to functions on `List Char` / `String`; the external world
(markdown renderer, HTTP responses, filesystem move outcomes) is passed in
explicitly; the per-run filesystem state (log file, pinned-id file, moved
files) is threaded as an explicit state record.
-/

namespace RustRocket

/-! ## Python string primitives

Python `str.strip()` / `str.split()` treat the six ASCII whitespace
characters as separators; `len` counts code points, which coincides with
`String.length` here. -/

/-- The characters Python's `str.strip`/`str.split` treat as whitespace. -/
def isPyWs (c : Char) : Bool :=
  c = ' ' || c = '\t' || c = '\n' || c = '\r' || c = '\x0b' || c = '\x0c'

/-- Python `s.strip()` on a list of characters. -/
def pyStripList (l : List Char) : List Char :=
  ((l.dropWhile isPyWs).reverse.dropWhile isPyWs).reverse

/-- Python `s.strip()`. -/
def pyStrip (s : String) : String :=
  ⟨pyStripList s.data⟩

/-- Worker for Python `s.split()`: accumulates the current word (reversed)
and emits it at each whitespace run boundary. -/
def splitWsAux : List Char → List Char → List (List Char)
  | [], acc => if acc = [] then [] else [acc.reverse]
  | c :: rest, acc =>
    if isPyWs c then
      if acc = [] then splitWsAux rest []
      else acc.reverse :: splitWsAux rest []
    else splitWsAux rest (c :: acc)

/-- Python `s.split()` (split on whitespace runs, no empty words). -/
def pySplitWs (l : List Char) : List (List Char) :=
  splitWsAux l []

/-- Python `" ".join(words)`. -/
def joinSp : List (List Char) → List Char
  | [] => []
  | [w] => w
  | w :: ws => w ++ ' ' :: joinSp ws

/-! ## Tag stripping

`re.sub(r"<[^>]+>", "", html)`: at a `<`, the regex matches one or more
non-`>` characters followed by `>`; the leftmost such match is removed and
scanning resumes after it. -/

/-- After at least one non-`>` character has been consumed inside a
candidate tag: scan to the closing `>` and return the remainder. -/
def tagScan : List Char → Option (List Char)
  | [] => none
  | c :: rest => if c = '>' then some rest else tagScan rest

/-- Given the characters after a `<`, return the remainder after the
matched `<[^>]+>` tag, or `none` if the regex does not match here. -/
def tagRemainder : List Char → Option (List Char)
  | [] => none
  | c :: rest => if c = '>' then none else tagScan rest

theorem tagScan_length : ∀ l r, tagScan l = some r → r.length < l.length := by
  intro l
  induction l with
  | nil => intro r h; simp [tagScan] at h
  | cons c rest ih =>
    intro r h
    simp only [tagScan] at h
    by_cases hc : c = '>'
    · simp [hc] at h
      simp [← h, List.length_cons]
    · simp [hc] at h
      have := ih r h
      simp [List.length_cons]
      omega

theorem tagRemainder_length : ∀ l r, tagRemainder l = some r → r.length < l.length := by
  intro l r h
  cases l with
  | nil => simp [tagRemainder] at h
  | cons c rest =>
    simp only [tagRemainder] at h
    by_cases hc : c = '>'
    · simp [hc] at h
    · simp [hc] at h
      have := tagScan_length rest r h
      simp [List.length_cons]
      omega

/-- `re.sub(r"<[^>]+>", "", text)`: remove every leftmost-matching
non-overlapping `<[^>]+>` span. -/
def stripTags : List Char → List Char
  | [] => []
  | c :: rest =>
    if c = '<' then
      match h : tagRemainder rest with
      | some rem => stripTags rem
      | none => c :: stripTags rest
    else c :: stripTags rest
termination_by l => l.length
decreasing_by
  · have := tagRemainder_length rest rem h
    simp [List.length_cons]
    omega
  · simp [List.length_cons]
  · simp [List.length_cons]

/-! ## Text Normalizer (`markdown_to_text`) and the Post Validator -/

/-- `markdown_to_text` from `autopost.py`: render markdown (external
library, abstracted as `render`), strip `<[^>]+>` tags, collapse
whitespace via `" ".join(text.split())`, and `strip()` the result. -/
def markdown_to_text (render : String → String) (content : String) : String :=
  let html := render content
  let text := stripTags html.data
  let joined := joinSp (pySplitWs text)
  ⟨pyStripList joined⟩

/-- `validate_tweet_length` from `autopost.py`: `len(text) <= max_length`. -/
def validate_tweet_length (text : String) (max_length : Nat := 280) : Bool :=
  decide (text.length ≤ max_length)

/-- The error message built by both `process_tweet_file` and
`TwitterClient.post_tweet` for over-long text. -/
def tooLongMsg (n : Nat) : String :=
  "Tweet too long: " ++ toString n ++ " characters (max 280)"

/-! ## Publish Client model (`TwitterClient` in `utils/twitter.py`)

HTTP responses are inputs: `net n` is the response to the `n`-th HTTP post
request issued during one `post_tweet` call. -/

/-- One HTTP response: 2xx carrying the created tweet id, a 429, or any
other error that `raise_for_status` turns into an exception. -/
inductive HttpResponse
  | ok (tweetId : String)
  | rateLimited
  | err (msg : String)
deriving DecidableEq

/-- `response.raise_for_status()` followed by extraction of
`result["data"]["id"]`: succeeds exactly on a 2xx response. -/
def raiseForStatus : HttpResponse → Except String String
  | .ok id => .ok id
  | .rateLimited => .error "429 Client Error: Too Many Requests"
  | .err m => .error m

/-- Outcome of one `TwitterClient.post_tweet` call: the returned id or the
raised `TwitterWriteError` message, the `time.sleep` durations in order,
and the number of HTTP post requests issued. -/
structure PostCallResult where
  result : Except String String
  sleeps : List Nat
  requests : Nat

/-- `TwitterClient.post_tweet`: length pre-check, dry-run short circuit,
session check, then one paced request with a single 60-second-cooldown
retry on a 429 response. -/
def post_tweet (dry_run : Bool) (hasSession : Bool) (text : String)
    (net : Nat → HttpResponse) : PostCallResult :=
  if 280 < text.length then
    ⟨.error (tooLongMsg text.length), [], 0⟩
  else if dry_run then
    ⟨.ok "dry_run_tweet_id_12345", [], 0⟩
  else if hasSession = false then
    ⟨.error "OAuth session not initialized", [], 0⟩
  else
    match net 0 with
    | .rateLimited =>
      match raiseForStatus (net 1) with
      | .ok id => ⟨.ok id, [1, 60], 2⟩
      | .error e => ⟨.error ("Failed to post tweet: " ++ e), [1, 60], 2⟩
    | r =>
      match raiseForStatus r with
      | .ok id => ⟨.ok id, [1], 1⟩
      | .error e => ⟨.error ("Failed to post tweet: " ++ e), [1], 1⟩

/-- `TwitterClient.pin_tweet`: dry-run short circuit, session check, one
pin request; a non-2xx response raises a tagged `TwitterWriteError`. -/
def pin_tweet (dry_run : Bool) (hasSession : Bool) (tweetId : String)
    (pinNet : HttpResponse) : Except String Bool :=
  if dry_run then .ok true
  else if hasSession = false then .error "OAuth session not initialized"
  else
    match raiseForStatus pinNet with
    | .ok _ => .ok true
    | .error e => .error ("Failed to pin tweet " ++ tweetId ++ ": " ++ e)

/-! ## Data model of one queue item -/

/-- Recognized front-matter keys plus the untouched pass-through rest. -/
structure Metadata where
  pin : Bool := false
  reply_to : Option String := none
  extra : List (String × String) := []
deriving DecidableEq

/-- File suffix detected from the queue file name. -/
inductive FileFormat
  | md
  | txt
deriving DecidableEq

/-- One discovered queue file: its name, suffix format, the outcome of
`frontmatter.load` on its bytes (an exception message or metadata plus raw
body), and its modification time. -/
structure QueueItem where
  name : String
  format : FileFormat
  parse : Except String (Metadata × String)
  mtime : Nat

/-- The external world for one item: the markdown renderer, the HTTP
responses for post and pin requests, whether the OAuth session was set up,
whether `shutil.move` succeeds, and the wall-clock timestamp string. -/
structure ItemEnv where
  render : String → String
  postNet : Nat → HttpResponse
  pinNet : HttpResponse
  hasSession : Bool
  moveOk : Bool
  ts : String

/-- The normalized text computed in `process_tweet_file`: the body is
stripped, then markdown files are run through `markdown_to_text`. -/
def normText (fmt : FileFormat) (render : String → String) (rawBody : String) : String :=
  let content := pyStrip rawBody
  if fmt = .md then markdown_to_text render content else content

/-! ## `process_tweet_file` -/

/-- The result dictionary of `process_tweet_file` plus ghost observables
(whether `post_tweet`/`pin_tweet` were invoked, HTTP request count, sleep
durations, and the id a successful live or mock post returned). -/
structure ProcOutcome where
  success : Bool
  tweet_id : String
  error : Option String
  text : String
  metadata : Metadata
  pinned : Bool
  postCalled : Bool
  postRequests : Nat
  sleeps : List Nat
  postedId : Option String
  pinCalled : Bool

/-- `process_tweet_file`: parse, normalize, validate, post, optionally
pin; every exception is caught and becomes a failure dictionary with
empty text and metadata. -/
def process_tweet_file (item : QueueItem) (env : ItemEnv) (dry_run : Bool) : ProcOutcome :=
  match item.parse with
  | .error e =>
    { success := false, tweet_id := "", error := some e, text := "", metadata := {},
      pinned := false, postCalled := false, postRequests := 0, sleeps := [],
      postedId := none, pinCalled := false }
  | .ok (metadata, rawBody) =>
    let text := normText item.format env.render rawBody
    if validate_tweet_length text = false then
      { success := false, tweet_id := "", error := some (tooLongMsg text.length),
        text := text, metadata := metadata, pinned := false, postCalled := false,
        postRequests := 0, sleeps := [], postedId := none, pinCalled := false }
    else
      let pc := post_tweet dry_run env.hasSession text env.postNet
      match pc.result with
      | .error e =>
        { success := false, tweet_id := "", error := some e, text := "", metadata := {},
          pinned := false, postCalled := true, postRequests := pc.requests,
          sleeps := pc.sleeps, postedId := none, pinCalled := false }
      | .ok tweet_id =>
        let should_pin := metadata.pin
        if should_pin && !dry_run then
          match pin_tweet dry_run env.hasSession tweet_id env.pinNet with
          | .error e =>
            { success := false, tweet_id := "", error := some e, text := "",
              metadata := {}, pinned := false, postCalled := true,
              postRequests := pc.requests, sleeps := pc.sleeps,
              postedId := some tweet_id, pinCalled := true }
          | .ok _ =>
            { success := true, tweet_id := tweet_id, error := none, text := text,
              metadata := metadata, pinned := should_pin, postCalled := true,
              postRequests := pc.requests, sleeps := pc.sleeps,
              postedId := some tweet_id, pinCalled := true }
        else
          { success := true, tweet_id := tweet_id, error := none, text := text,
            metadata := metadata, pinned := should_pin, postCalled := true,
            postRequests := pc.requests, sleeps := pc.sleeps,
            postedId := some tweet_id, pinCalled := false }

/-! ## Result Recorder (`log_tweet_result`, `save_pinned_tweet`) -/

/-- One JSON line of the append-only log file (`log_tweet_result`). -/
structure LogEntry where
  timestamp : String
  filename : String
  tweet_id : String
  text : String
  metadata : Metadata
  success : Bool
  error : Option String
  char_count : Nat
deriving DecidableEq

/-- The log entry dictionary built by `log_tweet_result`: `char_count` is
computed as `len(text)`. -/
def mkLogEntry (ts filename tweet_id text : String) (metadata : Metadata)
    (success : Bool) (error : Option String) : LogEntry :=
  { timestamp := ts, filename := filename, tweet_id := tweet_id, text := text,
    metadata := metadata, success := success, error := error,
    char_count := text.length }

/-! ## Queue Driver state and `process_all_tweets` -/

/-- The per-run filesystem state: the log file as a list of entries, the
pinned-id file as its raw text, and the names already moved to `done/`. -/
structure FsState where
  log : List LogEntry
  pinnedFile : String
  moved : List String
deriving DecidableEq

/-- Tally for one item in `process_all_tweets`. -/
inductive Tally
  | success
  | error
deriving DecidableEq

/-- One loop iteration of `process_all_tweets`: process the item, then
(live runs only) append the log entry, append the pinned id when the
result is pinned, and move the file; a failed move is caught by the loop's
`except` and tallied as an error after the log and pin writes happened. -/
def processOne (dry_run : Bool) (item : QueueItem) (env : ItemEnv)
    (st : FsState) : FsState × Tally :=
  let r := process_tweet_file item env dry_run
  if r.success then
    if dry_run then (st, .success)
    else
      let st1 : FsState :=
        { st with log := st.log ++
            [mkLogEntry env.ts item.name r.tweet_id r.text r.metadata true none] }
      let st2 : FsState :=
        if r.pinned then
          { st1 with pinnedFile := st1.pinnedFile ++ r.tweet_id ++ "\n" }
        else st1
      if env.moveOk then
        ({ st2 with moved := st2.moved ++ [item.name] }, .success)
      else (st2, .error)
  else
    if dry_run then (st, .error)
    else
      ({ st with log := st.log ++
          [mkLogEntry env.ts item.name "" r.text r.metadata false r.error] },
       .error)

/-- `process_all_tweets`: sequential loop over the discovered items,
accumulating success and error counts. -/
def process_all_tweets (dry_run : Bool) :
    List (QueueItem × ItemEnv) → FsState → FsState × Nat × Nat
  | [], st => (st, 0, 0)
  | (item, env) :: rest, st =>
    let p := processOne dry_run item env st
    let q := process_all_tweets dry_run rest p.1
    match p.2 with
    | .success => (q.1, q.2.1 + 1, q.2.2)
    | .error => (q.1, q.2.1, q.2.2 + 1)

/-! ## Discovery (`discover_tweet_files`) -/

/-- A directory entry as seen by the scan: name and modification time. -/
structure DirFile where
  name : String
  mtime : Nat
deriving DecidableEq

/-- Matches the `*.tweet.md` glob. -/
def isTweetMd (f : DirFile) : Bool :=
  ".tweet.md".data.isSuffixOf f.name.data

/-- Matches the `*.tweet.txt` glob. -/
def isTweetTxt (f : DirFile) : Bool :=
  ".tweet.txt".data.isSuffixOf f.name.data

/-- Matches one of the two recognized suffix patterns. -/
def matchesTweetPattern (f : DirFile) : Bool :=
  isTweetMd f || isTweetTxt f

/-- Ordering key of the sort: modification time, ascending. -/
def mtimeLE (a b : DirFile) : Prop :=
  a.mtime ≤ b.mtime

instance : DecidableRel mtimeLE := fun a b => Nat.decLe a.mtime b.mtime

instance : IsTotal DirFile mtimeLE := ⟨fun a b => Nat.le_total a.mtime b.mtime⟩

instance : IsTrans DirFile mtimeLE := ⟨fun _ _ _ h h2 => Nat.le_trans h h2⟩

/-- `discover_tweet_files`: glob the two patterns, sort by modification
time ascending, truncate to `max_tweets`. -/
def discover_tweet_files (files : List DirFile) (max_tweets : Nat) : List DirFile :=
  let tweet_files := files.filter isTweetMd ++ files.filter isTweetTxt
  (List.insertionSort mtimeLE tweet_files).take max_tweets

/-- The `--max-tweets` default declared on `autopost_run`. -/
def autopost_run_default_max_tweets : Nat := 10

/-! ## JSON view of a log entry (`json.dumps` / `json.loads`) -/

/-- The JSON values the log entry serialization produces. -/
inductive JValue
  | jstr (s : String)
  | jnat (n : Nat)
  | jbool (b : Bool)
  | jnull
  | jobj (fields : List (String × JValue))

/-- Field lookup in a parsed JSON object. -/
def jGet : JValue → String → Option JValue
  | .jobj fields, k => fields.lookup k
  | _, _ => none

/-- The metadata snapshot as `json.dumps` renders it. -/
def Metadata.toJson (m : Metadata) : JValue :=
  .jobj ([("pin", .jbool m.pin)] ++
    (match m.reply_to with
     | some r => [("reply_to", .jstr r)]
     | none => []) ++
    m.extra.map (fun p => (p.1, .jstr p.2)))

/-- The JSON object written by `log_tweet_result`, fields in the source's
dictionary order. -/
def LogEntry.toJson (e : LogEntry) : JValue :=
  .jobj [("timestamp", .jstr e.timestamp),
         ("filename", .jstr e.filename),
         ("tweet_id", .jstr e.tweet_id),
         ("text", .jstr e.text),
         ("metadata", e.metadata.toJson),
         ("success", .jbool e.success),
         ("error", match e.error with | some m => .jstr m | none => .jnull),
         ("char_count", .jnat e.char_count)]

/-! ## Properties of the whitespace collapse -/

/-- Adjacent characters are not both whitespace. -/
def wsR (a b : Char) : Prop :=
  isPyWs a = false ∨ isPyWs b = false

/-- No two consecutive whitespace characters anywhere in the list. -/
def NoDoubleWs (l : List Char) : Prop :=
  l.Chain' wsR

/-- The first and last characters, when they exist, are not whitespace. -/
def noEdgeWs (l : List Char) : Bool :=
  (match l.head? with
   | some c => !isPyWs c
   | none => true) &&
  (match l.getLast? with
   | some c => !isPyWs c
   | none => true)

/-- A word as produced by `pySplitWs`: nonempty and whitespace-free. -/
def goodWord (w : List Char) : Prop :=
  w ≠ [] ∧ ∀ c ∈ w, isPyWs c = false

theorem splitWsAux_good :
    ∀ (l acc : List Char), (∀ c ∈ acc, isPyWs c = false) →
      ∀ w ∈ splitWsAux l acc, goodWord w := by
  intro l
  induction l with
  | nil =>
    intro acc hacc w hw
    simp only [splitWsAux] at hw
    by_cases h : acc = []
    · simp [h] at hw
    · simp [h] at hw
      subst hw
      refine ⟨by simpa using h, ?_⟩
      intro c hc
      exact hacc c (List.mem_reverse.mp hc)
  | cons a rest ih =>
    intro acc hacc w hw
    simp only [splitWsAux] at hw
    by_cases ha : isPyWs a = true
    · simp [ha] at hw
      by_cases h : acc = []
      · simp [h] at hw
        exact ih [] (by simp) w hw
      · simp [h] at hw
        rcases hw with hw | hw
        · subst hw
          refine ⟨by simpa using h, ?_⟩
          intro c hc
          exact hacc c (List.mem_reverse.mp hc)
        · exact ih [] (by simp) w hw
    · simp [ha] at hw
      refine ih (a :: acc) ?_ w hw
      intro c hc
      rcases List.mem_cons.mp hc with hc | hc
      · subst hc
        simpa using ha
      · exact hacc c hc

theorem pySplitWs_good (l : List Char) : ∀ w ∈ pySplitWs l, goodWord w :=
  splitWsAux_good l [] (by simp)

theorem joinSp_cons_cons (w v : List Char) (ws : List (List Char)) :
    joinSp (w :: v :: ws) = w ++ ' ' :: joinSp (v :: ws) := by
  simp [joinSp]

theorem joinSp_head :
    ∀ ws : List (List Char), (∀ w ∈ ws, goodWord w) →
      ∀ c, (joinSp ws).head? = some c → isPyWs c = false := by
  intro ws hws c hc
  match ws with
  | [] => simp [joinSp] at hc
  | [w] =>
    simp only [joinSp] at hc
    have hg := hws w (by simp)
    exact hg.2 c (List.mem_of_mem_head? hc)
  | w :: v :: ws =>
    rw [joinSp_cons_cons] at hc
    have hg := hws w (by simp)
    rcases w with _ | ⟨a, w'⟩
    · exact absurd rfl hg.1
    · simp only [List.cons_append, List.head?_cons, Option.some_inj] at hc
      exact hg.2 c (by rw [hc]; exact List.mem_cons_self c w')

theorem joinSp_ne_nil :
    ∀ (w : List Char) (ws : List (List Char)), w ≠ [] → joinSp (w :: ws) ≠ [] := by
  intro w ws hw
  match ws with
  | [] => simpa [joinSp] using hw
  | v :: ws =>
    rw [joinSp_cons_cons]
    rcases w with _ | ⟨a, w'⟩
    · exact absurd rfl hw
    · simp

theorem joinSp_last :
    ∀ ws : List (List Char), (∀ w ∈ ws, goodWord w) →
      ∀ c, (joinSp ws).getLast? = some c → isPyWs c = false := by
  intro ws
  induction ws with
  | nil => intro _ c hc; simp [joinSp] at hc
  | cons w ws ih =>
    intro hws c hc
    match ws with
    | [] =>
      simp only [joinSp] at hc
      have hg := hws w (by simp)
      rcases List.mem_getLast?_eq_getLast hc with ⟨hne, hx⟩
      exact hg.2 c (hx ▸ List.getLast_mem hne)
    | v :: ws' =>
      rw [joinSp_cons_cons] at hc
      have hv : v ≠ [] := (hws v (by simp)).1
      have hne : joinSp (v :: ws') ≠ [] := joinSp_ne_nil v ws' hv
      rw [List.getLast?_append_of_ne_nil w (by simpa using hne)] at hc
      rw [show (' ' :: joinSp (v :: ws')) = [' '] ++ joinSp (v :: ws') from rfl,
        List.getLast?_append_of_ne_nil [' '] hne] at hc
      exact ih (fun u hu => hws u (by simp [hu])) c hc

theorem chain'_of_all_nonws :
    ∀ l : List Char, (∀ c ∈ l, isPyWs c = false) → NoDoubleWs l := by
  intro l
  induction l with
  | nil => intro _; exact List.chain'_nil
  | cons a t ih =>
    intro h
    rw [NoDoubleWs, List.chain'_cons']
    refine ⟨fun y _ => Or.inl (h a (by simp)), ?_⟩
    exact ih fun c hc => h c (by simp [hc])

theorem joinSp_chain :
    ∀ ws : List (List Char), (∀ w ∈ ws, goodWord w) → NoDoubleWs (joinSp ws) := by
  intro ws
  induction ws with
  | nil => intro _; exact List.chain'_nil
  | cons w ws ih =>
    intro hws
    match ws with
    | [] =>
      simp only [joinSp]
      exact chain'_of_all_nonws w (hws w (by simp)).2
    | v :: ws' =>
      rw [joinSp_cons_cons]
      have hg := hws w (by simp)
      have hrest : ∀ u ∈ v :: ws', goodWord u := fun u hu => hws u (by simp [hu])
      rw [NoDoubleWs, List.chain'_append]
      refine ⟨chain'_of_all_nonws w hg.2, ?_, ?_⟩
      · rw [List.chain'_cons']
        refine ⟨fun y hy => Or.inr (joinSp_head (v :: ws') hrest y hy), ih hrest⟩
      · intro x hx y _
        rcases List.mem_getLast?_eq_getLast hx with ⟨hne, hxe⟩
        exact Or.inl (hg.2 x (hxe ▸ List.getLast_mem hne))

theorem dropWhile_of_head_not :
    ∀ (p : Char → Bool) (l : List Char),
      (∀ c, l.head? = some c → p c = false) → l.dropWhile p = l := by
  intro p l h
  cases l with
  | nil => rfl
  | cons a t =>
    have := h a rfl
    simp [List.dropWhile_cons, this]

theorem pyStripList_of_noEdge (l : List Char) (h : noEdgeWs l = true) :
    pyStripList l = l := by
  rcases l with _ | ⟨a, t⟩
  · rfl
  · simp only [noEdgeWs, Bool.and_eq_true] at h
    have h1 : (a :: t).dropWhile isPyWs = a :: t := by
      apply dropWhile_of_head_not
      intro c hc
      simp only [List.head?_cons, Option.some_inj] at hc
      subst hc
      simpa using h.1
    have h2 : (a :: t).reverse.dropWhile isPyWs = (a :: t).reverse := by
      apply dropWhile_of_head_not
      intro c hc
      rw [List.head?_reverse] at hc
      have := h.2
      simp only [hc] at this
      simpa using this
    rw [pyStripList, h1, h2, List.reverse_reverse]

theorem markdown_to_text_props (render : String → String) (content : String) :
    NoDoubleWs (markdown_to_text render content).data ∧
    noEdgeWs (markdown_to_text render content).data = true := by
  have hgood := pySplitWs_good (stripTags (render content).data)
  set ws := pySplitWs (stripTags (render content).data) with hws
  have hchain : NoDoubleWs (joinSp ws) := joinSp_chain ws hgood
  have hedge : noEdgeWs (joinSp ws) = true := by
    rw [noEdgeWs, Bool.and_eq_true]
    constructor
    · rcases he : (joinSp ws).head? with _ | c
      · simp
      · simpa using joinSp_head ws hgood c he
    · rcases he : (joinSp ws).getLast? with _ | c
      · simp
      · simpa using joinSp_last ws hgood c he
  have hid : pyStripList (joinSp ws) = joinSp ws := pyStripList_of_noEdge _ hedge
  have hdata : (markdown_to_text render content).data = joinSp ws := by
    simp only [markdown_to_text, hws, hid]
  rw [hdata]
  exact ⟨hchain, hedge⟩

/-! ## Properties of the tag stripper -/

theorem tagScan_through :
    ∀ (t post : List Char), (∀ c ∈ t, c ≠ '>') →
      tagScan (t ++ '>' :: post) = some post := by
  intro t
  induction t with
  | nil => intro post _; simp [tagScan]
  | cons a t ih =>
    intro post h
    have ha : a ≠ '>' := h a (by simp)
    simp only [List.cons_append, tagScan, ha, if_neg ha]
    exact ih post fun c hc => h c (by simp [hc])

theorem tagRemainder_through :
    ∀ (tag post : List Char), tag ≠ [] → (∀ c ∈ tag, c ≠ '>') →
      tagRemainder (tag ++ '>' :: post) = some post := by
  intro tag post hne h
  rcases tag with _ | ⟨a, t⟩
  · exact absurd rfl hne
  · have ha : a ≠ '>' := h a (by simp)
    simp only [List.cons_append, tagRemainder, if_neg ha]
    exact tagScan_through t post fun c hc => h c (by simp [hc])

theorem stripTags_removes :
    ∀ (pre tag post : List Char), (∀ c ∈ pre, c ≠ '<') → tag ≠ [] →
      (∀ c ∈ tag, c ≠ '>') →
      stripTags (pre ++ '<' :: (tag ++ '>' :: post)) = pre ++ stripTags post := by
  intro pre
  induction pre with
  | nil =>
    intro tag post _ hne htag
    have hrem := tagRemainder_through tag post hne htag
    simp only [List.nil_append]
    rw [stripTags]
    rw [if_pos rfl]
    split
    · next rem heq =>
        rw [hrem] at heq
        cases heq
        rfl
    · next heq =>
        rw [hrem] at heq
        simp at heq
  | cons a pre ih =>
    intro tag post hpre hne htag
    have ha : a ≠ '<' := hpre a (by simp)
    have := ih tag post (fun c hc => hpre c (by simp [hc])) hne htag
    simp only [List.cons_append]
    rw [stripTags]
    simp only [if_neg ha]
    rw [this]

theorem stripTags_no_lt :
    ∀ l : List Char, (∀ c ∈ l, c ≠ '<') → stripTags l = l := by
  intro l
  induction l with
  | nil => intro _; rw [stripTags]
  | cons a t ih =>
    intro h
    have ha : a ≠ '<' := h a (by simp)
    rw [stripTags]
    simp only [if_neg ha]
    rw [ih fun c hc => h c (by simp [hc])]

theorem splitWsAux_all_nonws :
    ∀ (l acc : List Char), (∀ c ∈ l, isPyWs c = false) → acc.reverse ++ l ≠ [] →
      splitWsAux l acc = [acc.reverse ++ l] := by
  intro l
  induction l with
  | nil =>
    intro acc _ hne
    simp only [List.append_nil] at hne ⊢
    have : acc ≠ [] := fun h => hne (by simp [h])
    simp [splitWsAux, this]
  | cons a t ih =>
    intro acc hws _
    have ha : isPyWs a = false := hws a (by simp)
    simp only [splitWsAux, ha, Bool.false_eq_true, if_neg (by simp [ha] : ¬isPyWs a = true)]
    have := ih (a :: acc) (fun c hc => hws c (by simp [hc])) (by simp)
    rw [this]
    simp

theorem pyStripList_all_nonws (l : List Char) (h : ∀ c ∈ l, isPyWs c = false) :
    pyStripList l = l := by
  have h1 : l.dropWhile isPyWs = l :=
    dropWhile_of_head_not isPyWs l fun c hc => h c (List.mem_of_mem_head? hc)
  have h2 : l.reverse.dropWhile isPyWs = l.reverse :=
    dropWhile_of_head_not isPyWs l.reverse fun c hc => by
      rw [List.head?_reverse] at hc
      rcases List.mem_getLast?_eq_getLast hc with ⟨hne, hxe⟩
      exact h c (hxe ▸ List.getLast_mem hne)
  rw [pyStripList, h1, h2, List.reverse_reverse]

/-! ## Shared concrete inputs for witnesses and counterexamples -/

/-- A short plain-text queue item that parses cleanly. -/
def itemShort : QueueItem :=
  { name := "short.tweet.txt", format := .txt,
    parse := .ok ({}, "hello world"), mtime := 3 }

/-- The 281-character body rejected by the validator. -/
def xLong : String :=
  ⟨List.replicate 281 'x'⟩

/-- A plain-text queue item whose normalized text has 281 characters. -/
def itemLong : QueueItem :=
  { name := "long.tweet.txt", format := .txt,
    parse := .ok ({}, xLong), mtime := 5 }

/-- An item requesting a pin. -/
def itemPin : QueueItem :=
  { name := "pin.tweet.txt", format := .txt,
    parse := .ok ({ pin := true }, "hello world"), mtime := 7 }

/-- A live environment where every external call succeeds. -/
def envOkAll : ItemEnv :=
  { render := fun s => s, postNet := fun _ => .ok "id9", pinNet := .ok "1",
    hasSession := true, moveOk := true, ts := "2025-01-01T00:00:00+00:00" }

/-- A live environment where the post succeeds and the pin request fails. -/
def envPinFail : ItemEnv :=
  { render := fun s => s, postNet := fun _ => .ok "id1", pinNet := .err "boom",
    hasSession := true, moveOk := true, ts := "2025-01-01T00:00:00+00:00" }

theorem normText_xLong (r : String → String) :
    normText FileFormat.txt r xLong = xLong := by
  have hnw : ∀ c ∈ List.replicate 281 'x', isPyWs c = false := by
    intro c hc
    rw [List.eq_of_mem_replicate hc]
    decide
  show pyStrip xLong = xLong
  show (⟨pyStripList (List.replicate 281 'x')⟩ : String) = xLong
  rw [pyStripList_all_nonws _ hnw]
  rfl

theorem xLong_length : xLong.length = 281 := by
  show (List.replicate 281 'x').length = 281
  rw [List.length_replicate]

/-! ## Claim theorems -/

/-- C1: with the parse successful, an item whose normalized text exceeds
280 characters fails with the message naming the actual count and the 280
maximum and without any call to the publish client, while an item whose
normalized text is at most 280 characters passes the validation and
reaches the post call. -/
theorem c1_length_validation (item : QueueItem) (env : ItemEnv) (dry_run : Bool)
    (md : Metadata) (body : String) (hparse : item.parse = .ok (md, body)) :
    (280 < (normText item.format env.render body).length →
      (process_tweet_file item env dry_run).success = false ∧
      (process_tweet_file item env dry_run).error =
        some (tooLongMsg (normText item.format env.render body).length) ∧
      (process_tweet_file item env dry_run).postCalled = false ∧
      (process_tweet_file item env dry_run).postRequests = 0) ∧
    ((normText item.format env.render body).length ≤ 280 →
      validate_tweet_length (normText item.format env.render body) = true ∧
      (process_tweet_file item env dry_run).postCalled = true) := by
  constructor
  · intro hlong
    have hv : validate_tweet_length (normText item.format env.render body) = false := by
      simp only [validate_tweet_length, decide_eq_false_iff_not]
      omega
    simp [process_tweet_file, hparse, hv]
  · intro hle
    have hv : validate_tweet_length (normText item.format env.render body) = true := by
      simp only [validate_tweet_length, decide_eq_true_eq]
      exact hle
    refine ⟨hv, ?_⟩
    simp only [process_tweet_file, hparse, hv]
    rcases hpc : (post_tweet dry_run env.hasSession
      (normText item.format env.render body) env.postNet).result with e | id
    · simp [hpc]
    · simp only [hpc]
      by_cases hpin : (md.pin && !dry_run) = true
      · simp only [hpin, if_pos rfl]
        rcases hpt : pin_tweet dry_run env.hasSession id env.pinNet with e2 | b
        · simp [hpt]
        · simp [hpt]
      · simp [hpin]

/-- C1 witness: the 281-character item fails without a post call, and the
short item passes validation. -/
theorem c1_witness :
    (process_tweet_file itemLong envOkAll false).success = false ∧
    (process_tweet_file itemLong envOkAll false).postCalled = false ∧
    (process_tweet_file itemShort envOkAll false).postCalled = true := by
  have hlen : 280 < (normText itemLong.format envOkAll.render xLong).length := by
    rw [show itemLong.format = FileFormat.txt from rfl, normText_xLong, xLong_length]
    omega
  have h1 := (c1_length_validation itemLong envOkAll false {} xLong rfl).1 hlen
  have h2 := (c1_length_validation itemShort envOkAll false {} "hello world" rfl).2
    (by decide)
  exact ⟨h1.1, h1.2.2.1, h2.2⟩

/-- C2: on the live path with valid text, a 429 response triggers the
1-unit pacing sleep followed by a 60-unit cooldown and exactly one retry
(two requests in total, never more); a second 429 after the retry is a
terminal wrapped failure; any non-429 failure is not retried and surfaces
immediately as a wrapped failure; a 2xx needs one request. -/
theorem c2_retry_once (text : String) (net : Nat → HttpResponse)
    (hlen : text.length ≤ 280) :
    (post_tweet false true text net).requests ≤ 2 ∧
    (net 0 = .rateLimited →
      (post_tweet false true text net).sleeps = [1, 60] ∧
      (post_tweet false true text net).requests = 2 ∧
      (∀ id, net 1 = .ok id → (post_tweet false true text net).result = .ok id) ∧
      (net 1 = .rateLimited →
        (post_tweet false true text net).result =
          .error ("Failed to post tweet: 429 Client Error: Too Many Requests")) ∧
      (∀ m, net 1 = .err m →
        (post_tweet false true text net).result =
          .error ("Failed to post tweet: " ++ m))) ∧
    (∀ m, net 0 = .err m →
      (post_tweet false true text net).requests = 1 ∧
      (post_tweet false true text net).sleeps = [1] ∧
      (post_tweet false true text net).result =
        .error ("Failed to post tweet: " ++ m)) ∧
    (∀ id, net 0 = .ok id →
      (post_tweet false true text net).requests = 1 ∧
      (post_tweet false true text net).result = .ok id) := by
  have hnl : ¬280 < text.length := by omega
  refine ⟨?_, ?_, ?_, ?_⟩
  · simp only [post_tweet, if_neg hnl]
    rcases h0 : net 0 with id | _ | m <;> simp [h0, raiseForStatus] <;>
      rcases h1 : net 1 with id1 | _ | m1 <;> simp [raiseForStatus]
  · intro h0
    simp only [post_tweet, if_neg hnl, if_neg (by simp : ¬(false = true)),
      if_neg (by simp : ¬(true = false)), h0]
    rcases h1 : net 1 with id1 | _ | m1 <;>
      simp [raiseForStatus, h1]
  · intro m h0
    simp [post_tweet, if_neg hnl, h0, raiseForStatus]
  · intro id h0
    simp [post_tweet, if_neg hnl, h0, raiseForStatus]

/-- C2 witness: with a 429 then a 2xx, the call sleeps 1 then 60, issues
two requests and succeeds. -/
theorem c2_witness :
    (post_tweet false true "hi"
      (fun n => if n = 0 then .rateLimited else .ok "id2")).sleeps = [1, 60] ∧
    (post_tweet false true "hi"
      (fun n => if n = 0 then .rateLimited else .ok "id2")).requests = 2 ∧
    (post_tweet false true "hi"
      (fun n => if n = 0 then .rateLimited else .ok "id2")).result = .ok "id2" := by
  have h := c2_retry_once "hi" (fun n => if n = 0 then .rateLimited else .ok "id2")
    (by decide)
  have h429 := h.2.1 (by simp)
  exact ⟨h429.1, h429.2.1, h429.2.2.1 "id2" (by simp)⟩

/-- C10: with text of at most 280 characters the dry-run post call returns
the fixed mock identifier whatever the input or network behavior; longer
text raises the length error even in dry-run; and any item that parses and
passes validation is classified a success in a dry run. -/
theorem c10_dry_run_mock (text : String) (net : Nat → HttpResponse) (hs : Bool) :
    (text.length ≤ 280 →
      post_tweet true hs text net =
        ⟨.ok "dry_run_tweet_id_12345", [], 0⟩) ∧
    (280 < text.length →
      post_tweet true hs text net =
        ⟨.error (tooLongMsg text.length), [], 0⟩) ∧
    (∀ (item : QueueItem) (env : ItemEnv) (md : Metadata) (body : String),
      item.parse = .ok (md, body) →
      validate_tweet_length (normText item.format env.render body) = true →
      (process_tweet_file item env true).success = true) := by
  refine ⟨?_, ?_, ?_⟩
  · intro h
    simp [post_tweet, show ¬280 < text.length from by omega]
  · intro h
    simp [post_tweet, h]
  · intro item env md body hparse hv
    simp only [process_tweet_file, hparse, hv]
    have hlen : (normText item.format env.render body).length ≤ 280 := by
      simpa [validate_tweet_length] using hv
    have hpc : (post_tweet true env.hasSession
        (normText item.format env.render body) env.postNet).result =
        .ok "dry_run_tweet_id_12345" := by
      simp [post_tweet, show ¬280 < (normText item.format env.render body).length
        from by omega]
    simp [hpc]

/-- C10 witness: the short item in a dry run over a network that would
reject every live call is still a success with the mock identifier. -/
theorem c10_witness :
    post_tweet true false "hi" (fun _ => .err "down") =
      ⟨.ok "dry_run_tweet_id_12345", [], 0⟩ ∧
    (process_tweet_file itemShort
      { envOkAll with postNet := fun _ => .err "down", hasSession := false }
      true).success = true := by
  have h := c10_dry_run_mock "hi" (fun _ => .err "down") false
  refine ⟨h.1 (by decide), ?_⟩
  exact (c10_dry_run_mock "hi" (fun _ => .err "down") false).2.2 itemShort
    { envOkAll with postNet := fun _ => .err "down", hasSession := false }
    {} "hello world" rfl (by decide)

/-- The empty per-run filesystem state. -/
def stEmpty : FsState :=
  { log := [], pinnedFile := "", moved := [] }

/-- C4 counterexample: with `pin: true`, a successful post (`id1`) and a
failing pin request, the item is classified a failure carrying the pin
error — not recorded as a posted success as the claim states. -/
theorem c4_counterexample :
    (process_tweet_file itemPin envPinFail false).success = false ∧
    (process_tweet_file itemPin envPinFail false).error =
      some "Failed to pin tweet id1: boom" ∧
    (process_tweet_file itemPin envPinFail false).postedId = some "id1" := by
  refine ⟨by decide, by decide, by decide⟩

/-- C4 (amended): when `pin: true` is set, the post call succeeds and the
pin call fails in a non-dry run, the pin exception is caught at the item
boundary and the whole item is classified a Failure carrying the pin error
message; the successful post is not rolled back — the posted id stands and
no undo call exists — but the item is recorded as an error, not as a
posted success. -/
theorem c4_pin_failure_fails_item (item : QueueItem) (env : ItemEnv)
    (md : Metadata) (body : String) (id m : String)
    (hparse : item.parse = .ok (md, body)) (hpin : md.pin = true)
    (hlen : (normText item.format env.render body).length ≤ 280)
    (hs : env.hasSession = true) (hpost : env.postNet 0 = .ok id)
    (hpf : env.pinNet = .err m) :
    (process_tweet_file item env false).success = false ∧
    (process_tweet_file item env false).error =
      some ("Failed to pin tweet " ++ id ++ ": " ++ m) ∧
    (process_tweet_file item env false).postedId = some id ∧
    (process_tweet_file item env false).pinCalled = true := by
  have hv : validate_tweet_length (normText item.format env.render body) = true := by
    simp only [validate_tweet_length, decide_eq_true_eq]
    exact hlen
  have hpc : (post_tweet false env.hasSession
      (normText item.format env.render body) env.postNet).result = .ok id := by
    simp [post_tweet, show ¬280 < (normText item.format env.render body).length
      from by omega, hs, hpost, raiseForStatus]
  have hpt : pin_tweet false env.hasSession id env.pinNet =
      .error ("Failed to pin tweet " ++ id ++ ": " ++ m) := by
    simp [pin_tweet, hs, hpf, raiseForStatus]
  simp [process_tweet_file, hparse, hv, hpc, hpt, hpin]

/-- C4 witness: the amended statement at the concrete pin-failure run. -/
theorem c4_witness :
    (process_tweet_file itemPin envPinFail false).success = false ∧
    (process_tweet_file itemPin envPinFail false).postedId = some "id1" := by
  have h := c4_pin_failure_fails_item itemPin envPinFail { pin := true }
    "hello world" "id1" "boom" rfl rfl (by decide) rfl rfl rfl
  exact ⟨h.1, h.2.2.1⟩

/-! ## Queue Driver helper lemmas -/

theorem processOne_tally_of_failure (dry_run : Bool) (item : QueueItem)
    (env : ItemEnv) (st : FsState)
    (h : (process_tweet_file item env dry_run).success = false) :
    (processOne dry_run item env st).2 = .error := by
  cases dry_run <;> simp [processOne, h]

theorem processOne_tally_of_move_failure (item : QueueItem) (env : ItemEnv)
    (st : FsState) (h : (process_tweet_file item env false).success = true)
    (hm : env.moveOk = false) :
    (processOne false item env st).2 = .error := by
  by_cases hp : (process_tweet_file item env false).pinned <;>
    simp [processOne, h, hm, hp]

theorem process_all_tweets_counts (dry_run : Bool) :
    ∀ (items : List (QueueItem × ItemEnv)) (st : FsState),
      (process_all_tweets dry_run items st).2.1 +
        (process_all_tweets dry_run items st).2.2 = items.length := by
  intro items
  induction items with
  | nil => intro st; simp [process_all_tweets]
  | cons p rest ih =>
    intro st
    rcases p with ⟨item, env⟩
    simp only [process_all_tweets]
    rcases h : (processOne dry_run item env st).2 with _ | _ <;>
      · simp only [List.length_cons]
        have := ih (processOne dry_run item env st).1
        omega

theorem process_all_tweets_append (dry_run : Bool)
    (xs ys : List (QueueItem × ItemEnv)) (st : FsState) :
    (process_all_tweets dry_run (xs ++ ys) st).1 =
      (process_all_tweets dry_run ys (process_all_tweets dry_run xs st).1).1 ∧
    (process_all_tweets dry_run (xs ++ ys) st).2.1 =
      (process_all_tweets dry_run xs st).2.1 +
        (process_all_tweets dry_run ys (process_all_tweets dry_run xs st).1).2.1 ∧
    (process_all_tweets dry_run (xs ++ ys) st).2.2 =
      (process_all_tweets dry_run xs st).2.2 +
        (process_all_tweets dry_run ys (process_all_tweets dry_run xs st).1).2.2 := by
  induction xs generalizing st with
  | nil => simp [process_all_tweets]
  | cons p xs ih =>
    rcases p with ⟨item, env⟩
    obtain ⟨h1, h2, h3⟩ := ih (processOne dry_run item env st).1
    simp only [List.cons_append, process_all_tweets]
    rcases h : (processOne dry_run item env st).2 with _ | _ <;>
      simp only [List.append_eq] at h1 h2 h3 ⊢ <;>
      exact ⟨h1, by omega, by omega⟩

/-- C5: every item contributes exactly one tally (success + error counts
sum to the batch length, so no per-item error aborts the loop); the batch
splits compositionally, so the outcome of a prefix never prevents the
remaining items from being processed; and a failed item — parse,
validation or publish failure, or a failed relocation after a successful
live post — is tallied as an error. -/
theorem c5_error_isolation (dry_run : Bool)
    (items : List (QueueItem × ItemEnv)) (st : FsState) :
    ((process_all_tweets dry_run items st).2.1 +
      (process_all_tweets dry_run items st).2.2 = items.length) ∧
    (∀ (xs ys : List (QueueItem × ItemEnv)) (st0 : FsState),
      (process_all_tweets dry_run (xs ++ ys) st0).2.1 =
        (process_all_tweets dry_run xs st0).2.1 +
          (process_all_tweets dry_run ys (process_all_tweets dry_run xs st0).1).2.1 ∧
      (process_all_tweets dry_run (xs ++ ys) st0).2.2 =
        (process_all_tweets dry_run xs st0).2.2 +
          (process_all_tweets dry_run ys (process_all_tweets dry_run xs st0).1).2.2) ∧
    (∀ (item : QueueItem) (env : ItemEnv) (st0 : FsState),
      (process_tweet_file item env dry_run).success = false →
      (processOne dry_run item env st0).2 = .error) ∧
    (∀ (item : QueueItem) (env : ItemEnv) (st0 : FsState),
      (process_tweet_file item env false).success = true → env.moveOk = false →
      (processOne false item env st0).2 = .error) := by
  refine ⟨process_all_tweets_counts dry_run items st, ?_, ?_, ?_⟩
  · intro xs ys st0
    exact ⟨(process_all_tweets_append dry_run xs ys st0).2.1,
      (process_all_tweets_append dry_run xs ys st0).2.2⟩
  · intro item env st0 h
    exact processOne_tally_of_failure dry_run item env st0 h
  · intro item env st0 h hm
    exact processOne_tally_of_move_failure item env st0 h hm

theorem itemLong_fail (env : ItemEnv) (dry_run : Bool) :
    (process_tweet_file itemLong env dry_run).success = false := by
  have hv : validate_tweet_length (normText itemLong.format env.render xLong) = false := by
    rw [show itemLong.format = FileFormat.txt from rfl, normText_xLong]
    simp [validate_tweet_length, xLong_length]
  simp [process_tweet_file, show itemLong.parse = .ok ({}, xLong) from rfl, hv]

/-- C5 witness: the over-long first item is tallied an error and does not
stop the short second item; the two-item batch counts one success and one
error. -/
theorem c5_witness :
    (processOne false itemLong envOkAll stEmpty).2 = Tally.error ∧
    (process_all_tweets false [(itemLong, envOkAll), (itemShort, envOkAll)]
        stEmpty).2.1 +
      (process_all_tweets false [(itemLong, envOkAll), (itemShort, envOkAll)]
        stEmpty).2.2 = 2 := by
  have h := c5_error_isolation false [(itemLong, envOkAll), (itemShort, envOkAll)]
    stEmpty
  refine ⟨h.2.2.1 itemLong envOkAll stEmpty (itemLong_fail envOkAll false), ?_⟩
  simpa using h.1

/-! ## Result Recorder helper lemmas -/

theorem pin_tweet_ok_true (dry_run hasSession : Bool) (id : String)
    (net : HttpResponse) (b : Bool)
    (h : pin_tweet dry_run hasSession id net = .ok b) :
    pin_tweet dry_run hasSession id net = .ok true := by
  cases dry_run
  · cases hasSession
    · simp [pin_tweet] at h
    · rcases net with i | _ | m <;> simp [pin_tweet, raiseForStatus] at h ⊢
  · simp [pin_tweet]

theorem process_success_pinned (item : QueueItem) (env : ItemEnv)
    (hsucc : (process_tweet_file item env false).success = true)
    (hpinned : (process_tweet_file item env false).pinned = true) :
    (process_tweet_file item env false).metadata.pin = true ∧
    pin_tweet false env.hasSession (process_tweet_file item env false).tweet_id
      env.pinNet = .ok true := by
  rcases hp : item.parse with e | ⟨md, body⟩
  · simp [process_tweet_file, hp] at hsucc
  · by_cases hv : validate_tweet_length (normText item.format env.render body) = false
    · simp [process_tweet_file, hp, hv] at hsucc
    · simp only [Bool.not_eq_false] at hv
      simp only [process_tweet_file, hp, hv] at hsucc hpinned ⊢
      rcases hpc : (post_tweet false env.hasSession
          (normText item.format env.render body) env.postNet).result with e2 | id
      · simp [hpc] at hsucc
      · simp only [hpc] at hsucc hpinned ⊢
        by_cases hmd : md.pin = true
        · simp only [hmd, Bool.not_false, Bool.and_true, Bool.true_and] at hsucc hpinned ⊢
          rcases hpt : pin_tweet false env.hasSession id env.pinNet with e3 | b
          · simp [hpt] at hsucc
          · simp only [hpt] at hsucc hpinned ⊢
            exact ⟨hmd, pin_tweet_ok_true false env.hasSession id env.pinNet b hpt⟩
        · simp only [Bool.not_eq_true] at hmd
          simp [hmd] at hpinned

theorem processOne_dry_keeps_state (item : QueueItem) (env : ItemEnv) (st : FsState) :
    (processOne true item env st).1 = st := by
  by_cases h : (process_tweet_file item env true).success = true <;>
    simp [processOne, h]

theorem processOne_pinned_append (item : QueueItem) (env : ItemEnv) (st : FsState)
    (h : (process_tweet_file item env false).success = true)
    (hp : (process_tweet_file item env false).pinned = true) :
    (processOne false item env st).1.pinnedFile =
      st.pinnedFile ++ (process_tweet_file item env false).tweet_id ++ "\n" := by
  by_cases hm : env.moveOk = true <;> simp [processOne, h, hp, hm]

theorem processOne_pinned_unchanged (item : QueueItem) (env : ItemEnv) (st : FsState)
    (h : ¬((process_tweet_file item env false).success = true ∧
      (process_tweet_file item env false).pinned = true)) :
    (processOne false item env st).1.pinnedFile = st.pinnedFile := by
  by_cases hs : (process_tweet_file item env false).success = true
  · have hp : ¬(process_tweet_file item env false).pinned = true := fun hp => h ⟨hs, hp⟩
    by_cases hm : env.moveOk = true <;> simp [processOne, hs, hp, hm]
  · simp [processOne, hs]

theorem string_prefix_append (a b : String) :
    List.IsPrefix a.data (a ++ b).data :=
  List.prefix_append a.data b.data

theorem processOne_pinned_grows (dry_run : Bool) (item : QueueItem) (env : ItemEnv)
    (st : FsState) :
    List.IsPrefix st.pinnedFile.data (processOne dry_run item env st).1.pinnedFile.data := by
  cases dry_run
  · by_cases hs : (process_tweet_file item env false).success = true
    · by_cases hp : (process_tweet_file item env false).pinned = true
      · rw [processOne_pinned_append item env st hs hp]
        rw [String.append_assoc]
        exact string_prefix_append _ _
      · rw [processOne_pinned_unchanged item env st (fun hc => hp hc.2)]
    · rw [processOne_pinned_unchanged item env st (fun hc => hs hc.1)]
  · rw [processOne_dry_keeps_state item env st]

theorem process_all_tweets_state_cons (dry_run : Bool) (item : QueueItem)
    (env : ItemEnv) (rest : List (QueueItem × ItemEnv)) (st : FsState) :
    (process_all_tweets dry_run ((item, env) :: rest) st).1 =
      (process_all_tweets dry_run rest (processOne dry_run item env st).1).1 := by
  simp only [process_all_tweets]
  rcases h : (processOne dry_run item env st).2 with _ | _ <;> simp [h]

theorem process_all_pinned_grows (dry_run : Bool) :
    ∀ (items : List (QueueItem × ItemEnv)) (st : FsState),
      List.IsPrefix st.pinnedFile.data
        (process_all_tweets dry_run items st).1.pinnedFile.data := by
  intro items
  induction items with
  | nil => intro st; simp [process_all_tweets]
  | cons p rest ih =>
    intro st
    rcases p with ⟨item, env⟩
    rw [process_all_tweets_state_cons]
    exact (processOne_pinned_grows dry_run item env st).trans
      (ih (processOne dry_run item env st).1)

/-- C7: the pinned-id file only grows (state before is a prefix of state
after, for one item and for whole batches — no rewrite, dedup or
shortening); a dry run never touches it; and in a live run it is extended,
by exactly the posted id and a newline, precisely when the item succeeded
with a pin that was requested in the metadata and confirmed by a
successful pin call. -/
theorem c7_pinned_append_only (dry_run : Bool) (item : QueueItem) (env : ItemEnv)
    (st : FsState) :
    List.IsPrefix st.pinnedFile.data
      (processOne dry_run item env st).1.pinnedFile.data ∧
    (∀ (items : List (QueueItem × ItemEnv)) (st0 : FsState),
      List.IsPrefix st0.pinnedFile.data
        (process_all_tweets dry_run items st0).1.pinnedFile.data) ∧
    (processOne true item env st).1.pinnedFile = st.pinnedFile ∧
    ((process_tweet_file item env false).success = true →
      (process_tweet_file item env false).pinned = true →
      ((processOne false item env st).1.pinnedFile =
        st.pinnedFile ++ (process_tweet_file item env false).tweet_id ++ "\n" ∧
       (process_tweet_file item env false).metadata.pin = true ∧
       pin_tweet false env.hasSession (process_tweet_file item env false).tweet_id
         env.pinNet = .ok true)) ∧
    (¬((process_tweet_file item env false).success = true ∧
        (process_tweet_file item env false).pinned = true) →
      (processOne false item env st).1.pinnedFile = st.pinnedFile) := by
  refine ⟨processOne_pinned_grows dry_run item env st,
    process_all_pinned_grows dry_run,
    congrArg FsState.pinnedFile (processOne_dry_keeps_state item env st), ?_, ?_⟩
  · intro hs hp
    exact ⟨processOne_pinned_append item env st hs hp,
      (process_success_pinned item env hs hp).1,
      (process_success_pinned item env hs hp).2⟩
  · exact processOne_pinned_unchanged item env st

/-- C7 witness: processing the pin-requesting item appends exactly
`id9` and a newline to the empty pinned file, and a dry run of the same
item leaves it untouched. -/
theorem c7_witness :
    (processOne false itemPin envOkAll stEmpty).1.pinnedFile = "id9\n" ∧
    (processOne true itemPin envOkAll stEmpty).1.pinnedFile = "" := by
  have h := c7_pinned_append_only false itemPin envOkAll stEmpty
  have happ := (h.2.2.2.1 (by decide) (by decide)).1
  constructor
  · rw [happ]
    decide
  · exact (c7_pinned_append_only true itemPin envOkAll stEmpty).2.2.1

/-! ## Log record helper lemmas -/

theorem processOne_log_success (item : QueueItem) (env : ItemEnv) (st : FsState)
    (h : (process_tweet_file item env false).success = true) :
    (processOne false item env st).1.log = st.log ++
      [mkLogEntry env.ts item.name (process_tweet_file item env false).tweet_id
        (process_tweet_file item env false).text
        (process_tweet_file item env false).metadata true none] := by
  by_cases hp : (process_tweet_file item env false).pinned = true <;>
    by_cases hm : env.moveOk = true <;> simp [processOne, h, hp, hm]

theorem processOne_log_failure (item : QueueItem) (env : ItemEnv) (st : FsState)
    (h : (process_tweet_file item env false).success = false) :
    (processOne false item env st).1.log = st.log ++
      [mkLogEntry env.ts item.name ""
        (process_tweet_file item env false).text
        (process_tweet_file item env false).metadata false
        (process_tweet_file item env false).error] := by
  simp [processOne, h]

/-- C8: a live-run item appends exactly one log entry holding the
timestamp, filename, post id (empty on failure), text, metadata snapshot,
success flag, error and character count, with the character count computed
as the length of the recorded text; and looking the written JSON object's
fields back up reproduces the recorded filename, success flag and
character count (and every other field). -/
theorem c8_log_roundtrip (item : QueueItem) (env : ItemEnv) (st : FsState) :
    ∃ e : LogEntry,
      (processOne false item env st).1.log = st.log ++ [e] ∧
      e.filename = item.name ∧
      e.timestamp = env.ts ∧
      e.char_count = e.text.length ∧
      e.success = (process_tweet_file item env false).success ∧
      (e.success = false → e.tweet_id = "") ∧
      jGet e.toJson "timestamp" = some (.jstr e.timestamp) ∧
      jGet e.toJson "filename" = some (.jstr e.filename) ∧
      jGet e.toJson "tweet_id" = some (.jstr e.tweet_id) ∧
      jGet e.toJson "text" = some (.jstr e.text) ∧
      jGet e.toJson "metadata" = some e.metadata.toJson ∧
      jGet e.toJson "success" = some (.jbool e.success) ∧
      jGet e.toJson "error" =
        some (match e.error with | some m => .jstr m | none => .jnull) ∧
      jGet e.toJson "char_count" = some (.jnat e.char_count) := by
  by_cases h : (process_tweet_file item env false).success = true
  · refine ⟨mkLogEntry env.ts item.name (process_tweet_file item env false).tweet_id
      (process_tweet_file item env false).text
      (process_tweet_file item env false).metadata true none,
      processOne_log_success item env st h, rfl, rfl, rfl, h.symm,
      ?_, ?_, ?_, ?_, ?_, ?_, ?_, ?_, ?_⟩ <;> first
      | (intro hc; simp [mkLogEntry] at hc)
      | rfl
  · have h' : (process_tweet_file item env false).success = false := by
      simpa using h
    refine ⟨mkLogEntry env.ts item.name ""
      (process_tweet_file item env false).text
      (process_tweet_file item env false).metadata false
      (process_tweet_file item env false).error,
      processOne_log_failure item env st h', rfl, rfl, rfl, h'.symm,
      ?_, ?_, ?_, ?_, ?_, ?_, ?_, ?_, ?_⟩ <;> first
      | (intro _; rfl)
      | rfl

/-- C8 witness: the round-trip statement at a concrete item, environment
and state. -/
theorem c8_witness :
    ∃ e : LogEntry,
      (processOne false itemShort envOkAll stEmpty).1.log = stEmpty.log ++ [e] ∧
      e.filename = itemShort.name ∧
      e.timestamp = envOkAll.ts ∧
      e.char_count = e.text.length ∧
      e.success = (process_tweet_file itemShort envOkAll false).success ∧
      (e.success = false → e.tweet_id = "") ∧
      jGet e.toJson "timestamp" = some (.jstr e.timestamp) ∧
      jGet e.toJson "filename" = some (.jstr e.filename) ∧
      jGet e.toJson "tweet_id" = some (.jstr e.tweet_id) ∧
      jGet e.toJson "text" = some (.jstr e.text) ∧
      jGet e.toJson "metadata" = some e.metadata.toJson ∧
      jGet e.toJson "success" = some (.jbool e.success) ∧
      jGet e.toJson "error" =
        some (match e.error with | some m => .jstr m | none => .jnull) ∧
      jGet e.toJson "char_count" = some (.jnat e.char_count) :=
  c8_log_roundtrip itemShort envOkAll stEmpty

/-! ## Dry-run equivalence helper lemmas -/

/-- A live environment in which every external call the pipeline can make
succeeds: the OAuth session exists, the first post request is a 2xx, the
pin request is a 2xx, and the file move works. -/
def ItemEnv.liveOk (env : ItemEnv) : Prop :=
  env.hasSession = true ∧ (∃ id, env.postNet 0 = .ok id) ∧
  (∃ s, env.pinNet = .ok s) ∧ env.moveOk = true

theorem process_all_dry_state :
    ∀ (items : List (QueueItem × ItemEnv)) (st : FsState),
      (process_all_tweets true items st).1 = st := by
  intro items
  induction items with
  | nil => intro st; simp [process_all_tweets]
  | cons p rest ih =>
    intro st
    rcases p with ⟨item, env⟩
    rw [process_all_tweets_state_cons, processOne_dry_keeps_state]
    exact ih st

theorem success_dry_eq_live (item : QueueItem) (env : ItemEnv)
    (h : env.liveOk) :
    (process_tweet_file item env true).success =
      (process_tweet_file item env false).success := by
  obtain ⟨hs, ⟨id, hpost⟩, ⟨s2, hpin⟩, _⟩ := h
  rcases hp : item.parse with e | ⟨md, body⟩
  · simp [process_tweet_file, hp]
  · by_cases hv : validate_tweet_length (normText item.format env.render body) = false
    · simp [process_tweet_file, hp, hv]
    · simp only [Bool.not_eq_false] at hv
      have hlen : (normText item.format env.render body).length ≤ 280 := by
        simpa [validate_tweet_length] using hv
      have hdry : (post_tweet true env.hasSession
          (normText item.format env.render body) env.postNet).result =
          .ok "dry_run_tweet_id_12345" := by
        simp [post_tweet, show ¬280 < (normText item.format env.render body).length
          from by omega]
      have hlive : (post_tweet false env.hasSession
          (normText item.format env.render body) env.postNet).result = .ok id := by
        simp [post_tweet, show ¬280 < (normText item.format env.render body).length
          from by omega, hs, hpost, raiseForStatus]
      have hpt : pin_tweet false env.hasSession id env.pinNet = .ok true := by
        simp [pin_tweet, hs, hpin, raiseForStatus]
      simp only [process_tweet_file, hp, hv, hdry, hlive]
      by_cases hmd : md.pin = true <;> simp [hmd, hpt]

theorem processOne_tally_state_indep (dry_run : Bool) (item : QueueItem)
    (env : ItemEnv) (st st' : FsState) :
    (processOne dry_run item env st).2 = (processOne dry_run item env st').2 := by
  cases dry_run
  · by_cases h : (process_tweet_file item env false).success = true <;>
      by_cases hp : (process_tweet_file item env false).pinned = true <;>
        by_cases hm : env.moveOk = true <;>
          simp [processOne, h, hp, hm]
  · by_cases h : (process_tweet_file item env true).success = true <;>
      simp [processOne, h]

theorem counts_state_indep (dry_run : Bool) :
    ∀ (items : List (QueueItem × ItemEnv)) (st st' : FsState),
      (process_all_tweets dry_run items st).2 =
        (process_all_tweets dry_run items st').2 := by
  intro items
  induction items with
  | nil => intro st st'; simp [process_all_tweets]
  | cons p rest ih =>
    intro st st'
    rcases p with ⟨item, env⟩
    simp only [process_all_tweets]
    rw [processOne_tally_state_indep dry_run item env st st',
      ih (processOne dry_run item env st).1 (processOne dry_run item env st').1]
    rcases hx : (processOne dry_run item env st').2 with _ | _ <;> simp [hx]

theorem tally_dry (item : QueueItem) (env : ItemEnv) (st : FsState) :
    (processOne true item env st).2 =
      (if (process_tweet_file item env true).success = true
        then Tally.success else Tally.error) := by
  by_cases h : (process_tweet_file item env true).success = true <;>
    simp [processOne, h]

theorem tally_live (item : QueueItem) (env : ItemEnv) (st : FsState) :
    (processOne false item env st).2 =
      (if ((process_tweet_file item env false).success && env.moveOk) = true
        then Tally.success else Tally.error) := by
  by_cases h : (process_tweet_file item env false).success = true <;>
    by_cases hp : (process_tweet_file item env false).pinned = true <;>
      by_cases hm : env.moveOk = true <;>
        simp [processOne, h, hp, hm]

theorem counts_dry_eq_live :
    ∀ (items : List (QueueItem × ItemEnv)) (st : FsState),
      (∀ p ∈ items, ItemEnv.liveOk p.2) →
      (process_all_tweets true items st).2 =
        (process_all_tweets false items st).2 := by
  intro items
  induction items with
  | nil => intro st _; simp [process_all_tweets]
  | cons p rest ih =>
    intro st hlive
    rcases p with ⟨item, env⟩
    have henv : ItemEnv.liveOk env := hlive (item, env) (by simp)
    have hsucc := success_dry_eq_live item env henv
    have hm : env.moveOk = true := henv.2.2.2
    have ht : (processOne true item env st).2 = (processOne false item env st).2 := by
      rw [tally_dry, tally_live, hsucc, hm, Bool.and_true]
    have hrest : (process_all_tweets true rest (processOne true item env st).1).2 =
        (process_all_tweets false rest (processOne false item env st).1).2 := by
      rw [counts_state_indep true rest (processOne true item env st).1
        (processOne false item env st).1]
      exact ih (processOne false item env st).1
        (fun q hq => hlive q (by simp [hq]))
    simp only [process_all_tweets]
    rw [ht, hrest]
    rcases hx : (processOne false item env st).2 with _ | _ <;> simp [hx]

/-- C3: a dry run leaves the filesystem state — log, pinned file, moved
files — exactly as it was, while still computing each item's
classification; and when every live external call would succeed, the
dry-run success/error counts equal the live-run counts and each item gets
the same per-item success classification. -/
theorem c3_dry_run_frame (items : List (QueueItem × ItemEnv)) (st : FsState) :
    (process_all_tweets true items st).1 = st ∧
    ((∀ p ∈ items, ItemEnv.liveOk p.2) →
      (process_all_tweets true items st).2 =
        (process_all_tweets false items st).2 ∧
      ∀ p ∈ items, (process_tweet_file p.1 p.2 true).success =
        (process_tweet_file p.1 p.2 false).success) := by
  refine ⟨process_all_dry_state items st, fun hlive => ⟨counts_dry_eq_live items st hlive, ?_⟩⟩
  intro p hp
  exact success_dry_eq_live p.1 p.2 (hlive p hp)

theorem envOkAll_liveOk : ItemEnv.liveOk envOkAll :=
  ⟨rfl, ⟨"id9", rfl⟩, ⟨"1", rfl⟩, rfl⟩

/-- C3 witness: over a one-item batch the dry run keeps the state and
matches the live counts. -/
theorem c3_witness :
    (process_all_tweets true [(itemShort, envOkAll)] stEmpty).1 = stEmpty ∧
    (process_all_tweets true [(itemShort, envOkAll)] stEmpty).2 =
      (process_all_tweets false [(itemShort, envOkAll)] stEmpty).2 := by
  have h := c3_dry_run_frame [(itemShort, envOkAll)] stEmpty
  exact ⟨h.1, (h.2 (fun p hp => by
    rw [show p = (itemShort, envOkAll) from by simpa using hp]
    exact envOkAll_liveOk)).1⟩

/-! ## Discovery helper lemmas -/

/-- C6: discovery returns exactly `min N available` of the files matching
the two recognized patterns, in ascending modification-time order; every
returned file matches a pattern; every matching file is either returned or
left in the beyond-the-cap remainder; and the CLI cap default is 10. -/
theorem c6_discovery (files : List DirFile) (max_tweets : Nat) :
    (discover_tweet_files files max_tweets).length =
      min max_tweets (files.filter isTweetMd ++ files.filter isTweetTxt).length ∧
    List.Sorted mtimeLE (discover_tweet_files files max_tweets) ∧
    (∀ f ∈ discover_tweet_files files max_tweets, matchesTweetPattern f = true) ∧
    (∀ f ∈ files, matchesTweetPattern f = true →
      f ∈ discover_tweet_files files max_tweets ∨
      f ∈ (List.insertionSort mtimeLE
            (files.filter isTweetMd ++ files.filter isTweetTxt)).drop max_tweets) ∧
    autopost_run_default_max_tweets = 10 := by
  refine ⟨?_, ?_, ?_, ?_, rfl⟩
  · simp [discover_tweet_files, List.length_take, List.length_insertionSort]
  · exact List.Pairwise.sublist (List.take_sublist _ _)
      (List.sorted_insertionSort mtimeLE _)
  · intro f hf
    have h1 : f ∈ List.insertionSort mtimeLE
        (files.filter isTweetMd ++ files.filter isTweetTxt) :=
      List.mem_of_mem_take hf
    have h2 : f ∈ files.filter isTweetMd ++ files.filter isTweetTxt :=
      (List.perm_insertionSort mtimeLE _).mem_iff.mp h1
    rcases List.mem_append.mp h2 with h | h
    · simp [matchesTweetPattern, (List.mem_filter.mp h).2]
    · simp [matchesTweetPattern, (List.mem_filter.mp h).2]
  · intro f hf hm
    have h2 : f ∈ files.filter isTweetMd ++ files.filter isTweetTxt := by
      simp only [matchesTweetPattern, Bool.or_eq_true] at hm
      rcases hm with h | h
      · exact List.mem_append_left _ (List.mem_filter.mpr ⟨hf, h⟩)
      · exact List.mem_append_right _ (List.mem_filter.mpr ⟨hf, h⟩)
    have h3 : f ∈ List.insertionSort mtimeLE
        (files.filter isTweetMd ++ files.filter isTweetTxt) :=
      (List.perm_insertionSort mtimeLE _).mem_iff.mpr h2
    rw [← List.take_append_drop max_tweets (List.insertionSort mtimeLE
      (files.filter isTweetMd ++ files.filter isTweetTxt))] at h3
    exact List.mem_append.mp h3

/-- Three concrete directory entries: two queue files with out-of-order
modification times and one non-matching file. -/
def filesW : List DirFile :=
  [{ name := "b.tweet.md", mtime := 2 },
   { name := "a.tweet.txt", mtime := 1 },
   { name := "c.txt", mtime := 0 }]

/-- C6 witness: with a cap of 1 on the three-entry directory, exactly one
file is returned, it matches a pattern, and the other matching file is
left beyond the cap. -/
theorem c6_witness :
    (discover_tweet_files filesW 1).length = 1 ∧
    (∀ f ∈ discover_tweet_files filesW 1, matchesTweetPattern f = true) ∧
    (⟨"b.tweet.md", 2⟩ ∈ discover_tweet_files filesW 1 ∨
      (⟨"b.tweet.md", 2⟩ : DirFile) ∈ (List.insertionSort mtimeLE
        (filesW.filter isTweetMd ++ filesW.filter isTweetTxt)).drop 1) := by
  have h := c6_discovery filesW 1
  refine ⟨?_, h.2.2.1, h.2.2.2.1 ⟨"b.tweet.md", 2⟩ (by decide) (by decide)⟩
  rw [h.1]
  decide

/-- C9: a plain-text body is used as-is after trimming; a markdown body is
rendered (externally), every `<...>` markup tag span is stripped, runs of
whitespace are collapsed so that no two consecutive whitespace characters
remain and the result carries no leading or trailing whitespace; and
neither path truncates: both paths can produce texts longer than any
bound, in particular longer than 280. -/
theorem c9_normalizer (item : QueueItem) (env : ItemEnv) (md : Metadata)
    (body : String) (hparse : item.parse = .ok (md, body)) :
    (item.format = FileFormat.txt →
      normText item.format env.render body = pyStrip body) ∧
    (item.format = FileFormat.md →
      normText item.format env.render body =
        markdown_to_text env.render (pyStrip body) ∧
      NoDoubleWs (normText item.format env.render body).data ∧
      noEdgeWs (normText item.format env.render body).data = true) ∧
    (∀ pre tag post : List Char, (∀ c ∈ pre, c ≠ '<') → tag ≠ [] →
      (∀ c ∈ tag, c ≠ '>') →
      stripTags (pre ++ '<' :: (tag ++ '>' :: post)) = pre ++ stripTags post) ∧
    (∀ n : Nat, ∃ b : String,
      (normText FileFormat.txt env.render b).length > n) ∧
    (∀ n : Nat, ∃ (r : String → String) (c : String),
      (markdown_to_text r c).length > n) := by
  refine ⟨?_, ?_, stripTags_removes, ?_, ?_⟩
  · intro hf
    simp [normText, hf]
  · intro hf
    have heq : normText item.format env.render body =
        markdown_to_text env.render (pyStrip body) := by
      simp [normText, hf]
    refine ⟨heq, ?_, ?_⟩
    · rw [heq]
      exact (markdown_to_text_props env.render (pyStrip body)).1
    · rw [heq]
      exact (markdown_to_text_props env.render (pyStrip body)).2
  · intro n
    refine ⟨⟨List.replicate (n + 1) 'x'⟩, ?_⟩
    have hnw : ∀ c ∈ List.replicate (n + 1) 'x', isPyWs c = false := by
      intro c hc
      rw [List.eq_of_mem_replicate hc]
      decide
    have heq : normText FileFormat.txt env.render ⟨List.replicate (n + 1) 'x'⟩ =
        ⟨List.replicate (n + 1) 'x'⟩ := by
      show (⟨pyStripList (List.replicate (n + 1) 'x')⟩ : String) = _
      rw [pyStripList_all_nonws _ hnw]
    rw [heq]
    show (List.replicate (n + 1) 'x').length > n
    rw [List.length_replicate]
    omega
  · intro n
    refine ⟨fun _ => ⟨List.replicate (n + 1) 'x'⟩, "", ?_⟩
    have hnw : ∀ c ∈ List.replicate (n + 1) 'x', isPyWs c = false := by
      intro c hc
      rw [List.eq_of_mem_replicate hc]
      decide
    have h1 : stripTags (List.replicate (n + 1) 'x') = List.replicate (n + 1) 'x' :=
      stripTags_no_lt _ fun c hc => by
        rw [List.eq_of_mem_replicate hc]
        decide
    have h2 : pySplitWs (List.replicate (n + 1) 'x') = [List.replicate (n + 1) 'x'] := by
      have h := splitWsAux_all_nonws (List.replicate (n + 1) 'x') [] hnw
        (by simp [List.replicate_succ])
      simpa [pySplitWs] using h
    have heq : markdown_to_text (fun _ => (⟨List.replicate (n + 1) 'x'⟩ : String)) "" =
        ⟨List.replicate (n + 1) 'x'⟩ := by
      show (⟨pyStripList (joinSp (pySplitWs (stripTags
        (List.replicate (n + 1) 'x'))))⟩ : String) = _
      rw [h1, h2]
      show (⟨pyStripList (List.replicate (n + 1) 'x')⟩ : String) = _
      rw [pyStripList_all_nonws _ hnw]
    rw [heq]
    show (List.replicate (n + 1) 'x').length > n
    rw [List.length_replicate]
    omega

/-- C9 witness: the plain item's body is used trimmed as-is, and the text
path is not truncated at any bound — in particular not at 280. -/
theorem c9_witness :
    normText itemShort.format envOkAll.render "hello world" =
      pyStrip "hello world" ∧
    (∃ b : String, (normText FileFormat.txt envOkAll.render b).length > 280) := by
  have h := c9_normalizer itemShort envOkAll {} "hello world" rfl
  exact ⟨h.1 rfl, h.2.2.2.1 280⟩

end RustRocket
